import Mathlib

/-!
Verification of the core simulation of a console Tetris game
(`tetris.py`): shape catalog, board collision queries, piece locking,
line clearing, scoring and the main-loop state machine.

The embedding follows the Python source closely:
* a board is a list of rows, each row a list of cells, a cell is
  `Option Piece` (`none` = empty, as Python's `None`);
* positions and shape offsets are pairs of integers;
* `lock_piece` models Python's indexed assignment faithfully, including
  negative-index wrap-around and `IndexError` (as `Option`);
* the main loop is a step function on a `GameState`, parametrised by the
  input event and by the next randomly chosen piece kind.
-/

namespace Tetris

/-- The seven tetromino kinds (`TETROMINOS` keys / `PIECE_COLORS` keys). -/
inductive Piece where
  | I | O | T | S | Z | J | L
  deriving DecidableEq, Repr

/-- `BOARD_WIDTH = 10`. -/
def BOARD_WIDTH : Int := 10

/-- `BOARD_HEIGHT = 20`. -/
def BOARD_HEIGHT : Int := 20

/-- A rotation state: a list of `(x, y)` offsets within a 4×4 grid. -/
abbrev Shape := List (Int × Int)

/-- `TETROMINOS`: each piece kind maps to its four rotation states. -/
def TETROMINOS : Piece → List Shape
  | .I => [[(0, 1), (1, 1), (2, 1), (3, 1)],
           [(2, 0), (2, 1), (2, 2), (2, 3)],
           [(0, 2), (1, 2), (2, 2), (3, 2)],
           [(1, 0), (1, 1), (1, 2), (1, 3)]]
  | .O => [[(1, 0), (2, 0), (1, 1), (2, 1)],
           [(1, 0), (2, 0), (1, 1), (2, 1)],
           [(1, 0), (2, 0), (1, 1), (2, 1)],
           [(1, 0), (2, 0), (1, 1), (2, 1)]]
  | .T => [[(1, 0), (0, 1), (1, 1), (2, 1)],
           [(1, 0), (1, 1), (2, 1), (1, 2)],
           [(0, 1), (1, 1), (2, 1), (1, 2)],
           [(1, 0), (0, 1), (1, 1), (1, 2)]]
  | .S => [[(1, 0), (2, 0), (0, 1), (1, 1)],
           [(1, 0), (1, 1), (2, 1), (2, 2)],
           [(1, 1), (2, 1), (0, 2), (1, 2)],
           [(0, 0), (0, 1), (1, 1), (1, 2)]]
  | .Z => [[(0, 0), (1, 0), (1, 1), (2, 1)],
           [(2, 0), (1, 1), (2, 1), (1, 2)],
           [(0, 1), (1, 1), (1, 2), (2, 2)],
           [(1, 0), (0, 1), (1, 1), (0, 2)]]
  | .J => [[(0, 0), (0, 1), (1, 1), (2, 1)],
           [(1, 0), (2, 0), (1, 1), (1, 2)],
           [(0, 1), (1, 1), (2, 1), (2, 2)],
           [(1, 0), (1, 1), (0, 2), (1, 2)]]
  | .L => [[(2, 0), (0, 1), (1, 1), (2, 1)],
           [(1, 0), (1, 1), (1, 2), (2, 2)],
           [(0, 1), (1, 1), (2, 1), (0, 2)],
           [(0, 0), (1, 0), (1, 1), (1, 2)]]

/-- A board cell: empty (`None`) or occupied by a piece kind. -/
abbrev Cell := Option Piece

/-- A board: a list of rows, each a list of cells. -/
abbrev Board := List (List Cell)

/-- `create_board()`: a fresh empty `BOARD_HEIGHT × BOARD_WIDTH` board. -/
def create_board : Board :=
  List.replicate 20 (List.replicate 10 none)

/-- `board[ay][ax]` for already-validated non-negative in-range indices. -/
def cellAt (board : Board) (ax ay : Int) : Cell :=
  (board.getD ay.toNat []).getD ax.toNat none

/-- `can_place(board, shape, pos)`: true iff every absolute cell of the
shape at `pos` is inside the `10 × 20` board and currently empty. -/
def can_place (board : Board) (shape : Shape) (pos : Int × Int) : Bool :=
  shape.all fun c =>
    let ax := c.1 + pos.1
    let ay := c.2 + pos.2
    decide (0 ≤ ax) && decide (ax < BOARD_WIDTH) &&
    decide (0 ≤ ay) && decide (ay < BOARD_HEIGHT) &&
    (cellAt board ax ay).isNone

/-- Python list assignment `l[i] = a`: negative indices wrap around once,
out-of-range indices raise `IndexError` (modelled as `none`). -/
def pySet {α : Type} (l : List α) (i : Int) (a : α) : Option (List α) :=
  let j := if i < 0 then i + l.length else i
  if 0 ≤ j ∧ j < l.length then some (l.set j.toNat a) else none

/-- `board[ay][ax] = piece`: index the row (Python semantics), then assign
into it, then put the row back. -/
def pySetCell (board : Board) (ax ay : Int) (k : Piece) : Option Board :=
  let j := if ay < 0 then ay + board.length else ay
  if 0 ≤ j ∧ j < board.length then
    match pySet (board.getD j.toNat []) ax (some k) with
    | some row => some (board.set j.toNat row)
    | none => none
  else none

/-- The loop body of `lock_piece`: write `k` into each absolute cell in
turn, failing if any write raises `IndexError`. -/
def lockCells (board : Board) (cells : List (Int × Int)) (k : Piece) :
    Option Board :=
  match cells with
  | [] => some board
  | c :: rest =>
    match pySetCell board c.1 c.2 k with
    | some b => lockCells b rest k
    | none => none

/-- `lock_piece(board, shape, pos, piece)`: write the piece into the board
at its absolute cells. -/
def lock_piece (board : Board) (shape : Shape) (pos : Int × Int)
    (k : Piece) : Option Board :=
  lockCells board (shape.map fun c => (c.1 + pos.1, c.2 + pos.2)) k

/-- `clear_full_lines(board)`: keep the rows that still have an empty
cell, then insert that many fresh empty rows at the top. -/
def clear_full_lines (board : Board) : Board × Nat :=
  let new_board := board.filter fun row => row.any fun c => c.isNone
  let cleared := 20 - new_board.length
  (List.replicate cleared (List.replicate 10 none) ++ new_board, cleared)

/-- `TETROMINOS[piece][rotation]`. -/
def shapeOf (k : Piece) (r : Nat) : Shape := (TETROMINOS k).getD r []

/-- The spawn anchor `(BOARD_WIDTH // 2 - 2, 0)`. -/
def SPAWN_POS : Int × Int := (BOARD_WIDTH / 2 - 2, 0)

/-- `max(0.1, 0.5 - (level - 1) * 0.04)`, in exact arithmetic. -/
def fall_interval_of (lv : Nat) : ℚ :=
  max (1/10) (1/2 - ((lv : ℚ) - 1) * (4/100))

/-- The mutable state of `main()`'s loop: board, current piece
(`piece`, `rotation`, `pos`), score, total lines cleared, level, fall
interval, and whether the session is still running. -/
structure GameState where
  board : Board
  piece : Piece
  rotation : Nat
  pos : Int × Int
  score : Nat
  totalCleared : Nat
  level : Nat
  fallInterval : ℚ
  running : Bool
  deriving DecidableEq, Repr

/-- The input events the loop dispatches on: arrow keys, `w`/up rotate,
space hard drop, the automatic fall tick, and `q`. -/
inductive Event where
  | left | right | down | rotate | drop | tick | quit
  deriving DecidableEq, Repr

/-- The lock-in protocol: `lock_piece`, `clear_full_lines`, the guarded
score/level/interval update, then `spawn()` with the next random kind;
spawn failure ends the session (game over). -/
def lockAndRespawn (s : GameState) (next : Piece) : GameState :=
  let sh := shapeOf s.piece s.rotation
  let b1 := (lock_piece s.board sh s.pos s.piece).getD s.board
  let res := clear_full_lines b1
  let cleared := res.2
  let tc := if cleared ≠ 0 then s.totalCleared + cleared else s.totalCleared
  let sc := if cleared ≠ 0 then s.score + cleared ^ 2 * 100 else s.score
  let lv := if cleared ≠ 0 then tc / 10 + 1 else s.level
  let fi := if cleared ≠ 0 then fall_interval_of lv else s.fallInterval
  { board := res.1, piece := next, rotation := 0, pos := SPAWN_POS,
    score := sc, totalCleared := tc, level := lv, fallInterval := fi,
    running := can_place res.1 (shapeOf next 0) SPAWN_POS }

/-- The left-key handler: `new_pos = (pos[0] - 1, pos[1])`, committed
only when `can_place` accepts it. -/
def tryLeft (s : GameState) : GameState :=
  let np := (s.pos.1 - 1, s.pos.2)
  if can_place s.board (shapeOf s.piece s.rotation) np then
    { s with pos := np }
  else s

/-- The right-key handler: `new_pos = (pos[0] + 1, pos[1])`, committed
only when `can_place` accepts it. -/
def tryRight (s : GameState) : GameState :=
  let np := (s.pos.1 + 1, s.pos.2)
  if can_place s.board (shapeOf s.piece s.rotation) np then
    { s with pos := np }
  else s

/-- `rotation = (rotation + 1) % len(TETROMINOS[piece])`, committed only
when the rotated shape fits at the current anchor. -/
def tryRotate (s : GameState) : GameState :=
  let nr := (s.rotation + 1) % (TETROMINOS s.piece).length
  if can_place s.board (shapeOf s.piece nr) s.pos then
    { s with rotation := nr }
  else s

/-- A downward move that locks (and respawns) when rejected: the handler
for the down key and for the automatic fall tick. -/
def softDropStep (s : GameState) (next : Piece) : GameState :=
  let np := (s.pos.1, s.pos.2 + 1)
  if can_place s.board (shapeOf s.piece s.rotation) np then
    { s with pos := np }
  else lockAndRespawn s next

/-- The hard-drop loop `while can_place(board, shape, (x, y+1)): y += 1`,
with explicit fuel (the loop is bounded; the bound is proved below). -/
def hardDropAux (board : Board) (sh : Shape) (x : Int) (y : Int) :
    Nat → Int
  | 0 => y
  | n + 1 =>
    if can_place board sh (x, y + 1) then hardDropAux board sh x (y + 1) n
    else y

/-- The resting row of the hard drop started at `pos`. -/
def hardDropY (board : Board) (sh : Shape) (pos : Int × Int) : Int :=
  hardDropAux board sh pos.1 pos.2 20

/-- One iteration of the main loop, given the dispatched event and the
kind the RNG would hand to the next `spawn()`. After game over (or
quit) the state is absorbing. -/
def step (s : GameState) (e : Event) (next : Piece) : GameState :=
  if s.running then
    match e with
    | .left => tryLeft s
    | .right => tryRight s
    | .down => softDropStep s next
    | .tick => softDropStep s next
    | .rotate => tryRotate s
    | .drop =>
      lockAndRespawn
        { s with
          pos := (s.pos.1,
                  hardDropY s.board (shapeOf s.piece s.rotation) s.pos) }
        next
    | .quit => { s with running := false }
  else s

/-- The state right after start-up: fresh empty board, initial score,
level and fall interval, and the first `spawn()` (whose failure would be
an immediate game over). -/
def initState (k : Piece) : GameState :=
  { board := create_board, piece := k, rotation := 0, pos := SPAWN_POS,
    score := 0, totalCleared := 0, level := 1, fallInterval := 1/2,
    running := can_place create_board (shapeOf k 0) SPAWN_POS }

/-- The states the loop can reach: some initial spawn, closed under
steps. -/
inductive Reachable : GameState → Prop where
  | init (k : Piece) : Reachable (initState k)
  | step (s : GameState) (e : Event) (next : Piece) :
      Reachable s → Reachable (step s e next)

/-- Structural well-formedness of a board: exactly 20 rows of 10 cells. -/
def boardWF (b : Board) : Bool :=
  b.length == 20 && b.all fun row => row.length == 10

/-- The absolute cells of a shape anchored at `pos`. -/
def absCells (sh : Shape) (pos : Int × Int) : List (Int × Int) :=
  sh.map fun c => (c.1 + pos.1, c.2 + pos.2)

/-- A coordinate pair inside the `10 × 20` board. -/
def inBounds (c : Int × Int) : Prop :=
  0 ≤ c.1 ∧ c.1 < 10 ∧ 0 ≤ c.2 ∧ c.2 < 20

instance (c : Int × Int) : Decidable (inBounds c) := by
  unfold inBounds; infer_instance

/-- A row kept by the clear pass: it still has an empty cell. -/
def hasEmptyCell (row : List Cell) : Bool := row.any fun c => c.isNone

/-- The inductive invariant of the main loop: the board is a well-formed
`20 × 10` grid; while the session runs the active piece sits at a
`can_place`-validated position; level and fall interval satisfy the
documented relations. -/
def Inv (s : GameState) : Prop :=
  boardWF s.board = true ∧
  (s.running = true →
    can_place s.board (shapeOf s.piece s.rotation) s.pos = true) ∧
  s.level = s.totalCleared / 10 + 1 ∧
  s.fallInterval = fall_interval_of s.level

/-- An all-empty row, as produced by `clear_full_lines`. -/
def emptyRow : List Cell := List.replicate 10 none

/-- A full row (no empty cell). -/
def fullRow : List Cell := List.replicate 10 (some Piece.I)

/-- The spec's line-clear example: rows `[full, empty, full, full]` on
top of 16 empty rows. -/
def exampleBoardC2 : Board :=
  fullRow :: emptyRow :: fullRow :: fullRow :: List.replicate 16 emptyRow

/-- The number of lines the lock-in at the current position clears. -/
def clearedCount (s : GameState) : Nat :=
  (clear_full_lines
    ((lock_piece s.board (shapeOf s.piece s.rotation) s.pos
        s.piece).getD s.board)).2

/-- A state with the `O` piece resting on the floor: the next downward
move is rejected. -/
def bottomState : GameState :=
  { board := create_board, piece := Piece.O, rotation := 0,
    pos := (3, 18), score := 0, totalCleared := 0, level := 1,
    fallInterval := 1/2, running := true }

/-- A board that is fully occupied except for the cells of a `T` piece
(rotation 0) anchored at `(3, 0)`: every move or rotation collides. -/
def crampedBoard : Board :=
  (List.range 20).map fun y => (List.range 10).map fun x =>
    if (x = 4 ∧ y = 0) ∨ (x = 3 ∧ y = 1) ∨ (x = 4 ∧ y = 1) ∨
        (x = 5 ∧ y = 1) then none
    else some Piece.I

/-- A running state whose piece can neither move nor rotate. -/
def crampedState : GameState :=
  { board := crampedBoard, piece := Piece.T, rotation := 0,
    pos := (3, 0), score := 0, totalCleared := 0, level := 1,
    fallInterval := 1/2, running := true }

/-! ### List helper lemmas -/

theorem getD_set_eq {α : Type} (l : List α) (i : Nat) (a d : α)
    (h : i < l.length) : (l.set i a).getD i d = a := by
  induction l generalizing i with
  | nil => simp at h
  | cons x xs ih =>
    cases i with
    | zero => rfl
    | succ n => exact ih n (by simpa using h)

theorem getD_set_ne {α : Type} (l : List α) (i j : Nat) (a d : α)
    (h : i ≠ j) : (l.set i a).getD j d = l.getD j d := by
  induction l generalizing i j with
  | nil => rfl
  | cons x xs ih =>
    cases i with
    | zero => cases j with
      | zero => exact absurd rfl h
      | succ m => rfl
    | succ n => cases j with
      | zero => rfl
      | succ m => exact ih n m (by omega)

/-! ### `can_place` characterization -/

/-- `can_place` accepts exactly when every absolute cell is in bounds and
empty. -/
theorem can_place_iff (b : Board) (sh : Shape) (pos : Int × Int) :
    can_place b sh pos = true ↔
      ∀ c ∈ sh, inBounds (c.1 + pos.1, c.2 + pos.2) ∧
        cellAt b (c.1 + pos.1) (c.2 + pos.2) = none := by
  unfold can_place inBounds
  simp [List.all_eq_true, Option.isNone_iff_eq_none, BOARD_WIDTH,
    BOARD_HEIGHT, and_assoc]

/-! ### Well-formedness and `lock_piece` -/

theorem boardWF_iff (b : Board) :
    boardWF b = true ↔ b.length = 20 ∧ ∀ row ∈ b, row.length = 10 := by
  unfold boardWF
  simp [List.all_eq_true]

/-- In-bounds writes never raise: `pySetCell` is a plain two-level
`List.set`. -/
theorem pySetCell_inBounds (b : Board) (x y : Int) (k : Piece)
    (hwf : boardWF b = true) (hin : inBounds (x, y)) :
    pySetCell b x y k =
      some (b.set y.toNat ((b.getD y.toNat []).set x.toNat (some k))) := by
  obtain ⟨hlen, hrows⟩ := (boardWF_iff b).mp hwf
  obtain ⟨hx0, hx1, hy0, hy1⟩ := hin
  have hyn : y.toNat < b.length := by omega
  have hrow : (b.getD y.toNat []).length = 10 := by
    rw [List.getD_eq_getElem _ _ hyn]
    exact hrows _ (List.getElem_mem hyn)
  unfold pySetCell pySet
  have hnotneg : ¬ y < 0 := by omega
  simp only [hnotneg, if_false, if_neg, hlen]
  rw [if_pos (by constructor <;> omega)]
  have hxneg : ¬ x < 0 := by omega
  simp only [hxneg, if_false, hrow]
  rw [if_pos (by constructor <;> omega)]

theorem boardWF_set (b : Board) (j : Nat) (row : List Cell)
    (hwf : boardWF b = true) (hrow : row.length = 10) :
    boardWF (b.set j row) = true := by
  obtain ⟨hlen, hrows⟩ := (boardWF_iff b).mp hwf
  refine (boardWF_iff _).mpr ⟨by simpa using hlen, fun r hr => ?_⟩
  rcases List.mem_or_eq_of_mem_set hr with h | h
  · exact hrows r h
  · simpa [h] using hrow

/-- The effect of one in-bounds write on `cellAt`. -/
theorem cellAt_set (b : Board) (x y x' y' : Int) (k : Piece)
    (hwf : boardWF b = true) (hin : inBounds (x, y))
    (hin' : inBounds (x', y')) :
    cellAt (b.set y.toNat ((b.getD y.toNat []).set x.toNat (some k)))
        x' y' =
      if x = x' ∧ y = y' then some k else cellAt b x' y' := by
  obtain ⟨hlen, hrows⟩ := (boardWF_iff b).mp hwf
  obtain ⟨hx0, hx1, hy0, hy1⟩ := hin
  obtain ⟨hx0', hx1', hy0', hy1'⟩ := hin'
  have hyn : y.toNat < b.length := by omega
  have hrow : (b.getD y.toNat []).length = 10 := by
    rw [List.getD_eq_getElem _ _ hyn]
    exact hrows _ (List.getElem_mem hyn)
  by_cases hy : y = y'
  · subst hy
    unfold cellAt
    rw [getD_set_eq _ _ _ _ hyn]
    by_cases hx : x = x'
    · subst hx
      rw [if_pos ⟨rfl, rfl⟩, getD_set_eq _ _ _ _ (by omega)]
    · rw [if_neg (by tauto), getD_set_ne _ _ _ _ _ (by omega)]
  · unfold cellAt
    rw [if_neg (by tauto), getD_set_ne _ _ _ _ _ (by omega)]

/-- `lockCells` on validated cells: succeeds, keeps the board
well-formed, writes `k` exactly into the listed cells. -/
theorem lockCells_spec (cells : List (Int × Int)) (b : Board) (k : Piece)
    (hwf : boardWF b = true) (hin : ∀ c ∈ cells, inBounds c) :
    ∃ b', lockCells b cells k = some b' ∧ boardWF b' = true ∧
      ∀ x y : Int, inBounds (x, y) →
        cellAt b' x y = if (x, y) ∈ cells then some k else cellAt b x y := by
  induction cells generalizing b with
  | nil => exact ⟨b, rfl, hwf, fun x y _ => by simp⟩
  | cons c rest ih =>
    have hc : inBounds c := hin c (List.mem_cons_self c rest)
    have hcpair : inBounds (c.1, c.2) := hc
    obtain ⟨hlen, hrows⟩ := (boardWF_iff b).mp hwf
    have hyn : c.2.toNat < b.length := by
      obtain ⟨_, _, _, _⟩ := hcpair; omega
    have hrowlen : (b.getD c.2.toNat []).length = 10 := by
      rw [List.getD_eq_getElem _ _ hyn]
      exact hrows _ (List.getElem_mem hyn)
    have hset := pySetCell_inBounds b c.1 c.2 k hwf hcpair
    have hwf1 : boardWF
        (b.set c.2.toNat ((b.getD c.2.toNat []).set c.1.toNat (some k))) =
        true :=
      boardWF_set b _ _ hwf (by simpa using hrowlen)
    obtain ⟨b', hb', hwf', hframe⟩ :=
      ih (b.set c.2.toNat ((b.getD c.2.toNat []).set c.1.toNat (some k)))
        hwf1 (fun d hd => hin d (List.mem_cons_of_mem c hd))
    refine ⟨b', ?_, hwf', ?_⟩
    · unfold lockCells
      rw [hset]
      exact hb'
    · intro x y hxy
      rw [hframe x y hxy, cellAt_set b c.1 c.2 x y k hwf hcpair hxy]
      by_cases hmem : (x, y) ∈ rest
      · simp [hmem]
      · by_cases heq : c.1 = x ∧ c.2 = y
        · have : (x, y) ∈ c :: rest := by
            obtain ⟨h1, h2⟩ := heq
            simp [← h1, ← h2]
          simp [hmem, heq, this]
        · have : ¬ (x, y) ∈ c :: rest := by
            simp only [List.mem_cons, not_or]
            exact ⟨fun h => heq (by cases h; exact ⟨rfl, rfl⟩), hmem⟩
          simp [hmem, heq, this]

/-- `lock_piece` after a successful `can_place`: no `IndexError`, the
board stays well-formed, and exactly the absolute cells receive the
piece kind. -/
theorem lock_piece_spec (b : Board) (sh : Shape) (pos : Int × Int)
    (k : Piece) (hwf : boardWF b = true)
    (hcp : can_place b sh pos = true) :
    ∃ b', lock_piece b sh pos k = some b' ∧ boardWF b' = true ∧
      ∀ x y : Int, inBounds (x, y) →
        cellAt b' x y =
          if (x, y) ∈ absCells sh pos then some k else cellAt b x y := by
  have hin : ∀ c ∈ sh.map (fun c => (c.1 + pos.1, c.2 + pos.2)),
      inBounds c := by
    intro c hc
    obtain ⟨a, ha, rfl⟩ := List.mem_map.mp hc
    exact ((can_place_iff b sh pos).mp hcp a ha).1
  obtain ⟨b', hb', hwf', hframe⟩ := lockCells_spec _ b k hwf hin
  exact ⟨b', hb', hwf', fun x y hxy => hframe x y hxy⟩

/-! ### `clear_full_lines` -/

/-- `clear_full_lines` keeps the board well-formed and returns a cleared
count that is the number of full rows. -/
theorem clear_full_lines_spec (b : Board) (hwf : boardWF b = true) :
    boardWF (clear_full_lines b).1 = true ∧
      (clear_full_lines b).2 =
        (b.filter fun row => ! hasEmptyCell row).length := by
  obtain ⟨hlen, hrows⟩ := (boardWF_iff b).mp hwf
  have hsplit := List.length_eq_length_filter_add (l := b)
    (fun row => row.any fun c => c.isNone)
  have hfle : (b.filter fun row => row.any fun c => c.isNone).length ≤
      b.length := List.length_filter_le _ _
  simp only [Bool.not_eq_true] at hsplit
  constructor
  · refine (boardWF_iff _).mpr ⟨?_, ?_⟩
    · simp only [clear_full_lines, List.length_append,
        List.length_replicate]
      omega
    · intro row hrow
      simp only [clear_full_lines, List.mem_append] at hrow
      rcases hrow with h | h
      · simp [List.eq_of_mem_replicate h]
      · exact hrows row (List.mem_of_mem_filter h)
  · simp only [clear_full_lines, hasEmptyCell]
    omega

/-! ### Hard drop -/

theorem hardDropAux_can_place (b : Board) (sh : Shape) (x : Int)
    (n : Nat) (y : Int) (h : can_place b sh (x, y) = true) :
    can_place b sh (x, hardDropAux b sh x y n) = true := by
  induction n generalizing y with
  | zero => exact h
  | succ m ih =>
    unfold hardDropAux
    by_cases hstep : can_place b sh (x, y + 1) = true
    · rw [if_pos hstep]; exact ih (y + 1) hstep
    · rw [if_neg hstep]; exact h

theorem hardDropAux_le (b : Board) (sh : Shape) (x : Int) (n : Nat)
    (y : Int) : y ≤ hardDropAux b sh x y n := by
  induction n generalizing y with
  | zero => exact le_refl y
  | succ m ih =>
    unfold hardDropAux
    by_cases hstep : can_place b sh (x, y + 1) = true
    · rw [if_pos hstep]; exact le_trans (by omega) (ih (y + 1))
    · rw [if_neg hstep]

theorem hardDropAux_intermediate (b : Board) (sh : Shape) (x : Int)
    (n : Nat) (y : Int) (h : can_place b sh (x, y) = true) (i : Int)
    (h1 : y ≤ i) (h2 : i ≤ hardDropAux b sh x y n) :
    can_place b sh (x, i) = true := by
  induction n generalizing y with
  | zero =>
    have : i = y := le_antisymm h2 h1
    rwa [this]
  | succ m ih =>
    unfold hardDropAux at h2
    by_cases hstep : can_place b sh (x, y + 1) = true
    · rw [if_pos hstep] at h2
      rcases eq_or_lt_of_le h1 with rfl | hlt
      · exact h
      · exact ih (y + 1) hstep (by omega) h2
    · rw [if_neg hstep] at h2
      have : i = y := le_antisymm h2 h1
      rwa [this]

/-- With enough fuel the loop really stops at a blocked row: one more
row down is rejected. -/
theorem hardDropAux_stops (b : Board) (sh : Shape) (x : Int) (n : Nat)
    (y : Int) (c : Int × Int) (hc : c ∈ sh)
    (h : can_place b sh (x, y) = true)
    (hfuel : (19 : Int) - (y + c.2) < n) :
    can_place b sh (x, hardDropAux b sh x y n + 1) = false := by
  induction n generalizing y with
  | zero =>
    have hb := ((can_place_iff b sh (x, y)).mp h c hc).1
    obtain ⟨_, _, _, h20⟩ := hb
    simp only [Nat.cast_zero] at hfuel
    omega
  | succ m ih =>
    unfold hardDropAux
    by_cases hstep : can_place b sh (x, y + 1) = true
    · rw [if_pos hstep]
      exact ih (y + 1) hstep (by push_cast at hfuel ⊢; omega)
    · rw [if_neg hstep]
      exact Bool.eq_false_iff.mpr hstep

/-- The total descent is at most 19 rows. -/
theorem hardDropAux_bound (b : Board) (sh : Shape) (x : Int) (n : Nat)
    (y : Int) (c : Int × Int) (hc : c ∈ sh)
    (h : can_place b sh (x, y) = true) :
    hardDropAux b sh x y n - y ≤ 19 := by
  have hend := hardDropAux_can_place b sh x n y h
  have h1 := ((can_place_iff b sh (x, y)).mp h c hc).1
  have h2 := ((can_place_iff b sh
    (x, hardDropAux b sh x y n)).mp hend c hc).1
  obtain ⟨_, _, hy0, _⟩ := h1
  obtain ⟨_, _, _, hy1⟩ := h2
  omega

/-! ### The reachability invariant -/

theorem inv_init (k : Piece) : Inv (initState k) := by
  refine ⟨?_, ?_, ?_, ?_⟩
  · show boardWF create_board = true
    decide
  · intro h
    exact h
  · show (1 : Nat) = 0 / 10 + 1
    norm_num
  · show (1/2 : ℚ) = fall_interval_of 1
    unfold fall_interval_of
    norm_num

theorem inv_lockAndRespawn (s : GameState) (next : Piece)
    (hwf : boardWF s.board = true)
    (hcp : can_place s.board (shapeOf s.piece s.rotation) s.pos = true)
    (hlv : s.level = s.totalCleared / 10 + 1)
    (hfi : s.fallInterval = fall_interval_of s.level) :
    Inv (lockAndRespawn s next) := by
  obtain ⟨b1, hb1, hwf1, _⟩ :=
    lock_piece_spec s.board (shapeOf s.piece s.rotation) s.pos s.piece
      hwf hcp
  obtain ⟨hwf2, _⟩ := clear_full_lines_spec b1 hwf1
  unfold lockAndRespawn Inv
  simp only [hb1, Option.getD_some]
  by_cases hcl : (clear_full_lines b1).2 = 0
  · refine ⟨hwf2, fun h => h, ?_, ?_⟩ <;> simp [hcl, hlv, hfi]
  · refine ⟨hwf2, fun h => h, ?_, ?_⟩ <;> simp [hcl, hlv, hfi]

theorem inv_step (s : GameState) (e : Event) (next : Piece)
    (hs : Inv s) : Inv (step s e next) := by
  obtain ⟨hwf, hcp, hlv, hfi⟩ := hs
  by_cases hrun : s.running = true
  · have hcp' := hcp hrun
    unfold step
    rw [if_pos hrun]
    cases e with
    | left =>
      unfold tryLeft
      dsimp only
      split
      · rename_i h
        exact ⟨hwf, fun _ => h, hlv, hfi⟩
      · exact ⟨hwf, hcp, hlv, hfi⟩
    | right =>
      unfold tryRight
      dsimp only
      split
      · rename_i h
        exact ⟨hwf, fun _ => h, hlv, hfi⟩
      · exact ⟨hwf, hcp, hlv, hfi⟩
    | rotate =>
      unfold tryRotate
      dsimp only
      split
      · rename_i h
        exact ⟨hwf, fun _ => h, hlv, hfi⟩
      · exact ⟨hwf, hcp, hlv, hfi⟩
    | down =>
      unfold softDropStep
      dsimp only
      split
      · rename_i h
        exact ⟨hwf, fun _ => h, hlv, hfi⟩
      · exact inv_lockAndRespawn s next hwf hcp' hlv hfi
    | tick =>
      unfold softDropStep
      dsimp only
      split
      · rename_i h
        exact ⟨hwf, fun _ => h, hlv, hfi⟩
      · exact inv_lockAndRespawn s next hwf hcp' hlv hfi
    | drop =>
      have hdesc : can_place s.board (shapeOf s.piece s.rotation)
          (s.pos.1,
            hardDropY s.board (shapeOf s.piece s.rotation) s.pos) =
          true := by
        unfold hardDropY
        exact hardDropAux_can_place _ _ _ 20 s.pos.2 (by
          have : (s.pos.1, s.pos.2) = s.pos := rfl
          rwa [this])
      exact inv_lockAndRespawn _ next hwf hdesc hlv hfi
    | quit => exact ⟨hwf, by simp, hlv, hfi⟩
  · unfold step
    rw [if_neg hrun]
    exact ⟨hwf, hcp, hlv, hfi⟩

/-- Every reachable state satisfies the invariant. -/
theorem reachable_inv (s : GameState) (h : Reachable s) : Inv s := by
  induction h with
  | init k => exact inv_init k
  | step s e next _ ih => exact inv_step s e next ih

/-! ### Claim theorems -/

/-- C3: `can_place(board, shape, pos)` returns true if and only if every
absolute cell `(x+ox, y+oy)` for `(x, y)` in the shape lies within
`[0,10) × [0,20)` and the board cell there is empty. -/
theorem claim_C3 (b : Board) (sh : Shape) (pos : Int × Int) :
    can_place b sh pos = true ↔
      ∀ c ∈ sh, inBounds (c.1 + pos.1, c.2 + pos.2) ∧
        cellAt b (c.1 + pos.1) (c.2 + pos.2) = none :=
  can_place_iff b sh pos

/-- C2: on a 20-row board of 10-cell rows, `clear_full_lines` returns
the count of full rows, and rebuilds the board as that many fresh empty
rows on top of the non-full rows in their original relative order,
keeping 20 rows; in particular the `[full, empty, full, full]` example
clears 3 lines and leaves the empty row at the bottom of that group. -/
theorem claim_C2 :
    (∀ b : Board, b.length = 20 → (∀ row ∈ b, row.length = 10) →
      (clear_full_lines b).2 =
          (b.filter fun row => ! hasEmptyCell row).length ∧
      (clear_full_lines b).1 =
          List.replicate (clear_full_lines b).2 emptyRow ++
            b.filter (fun row => hasEmptyCell row) ∧
      ((clear_full_lines b).1).length = 20) ∧
    clear_full_lines exampleBoardC2 = (List.replicate 20 emptyRow, 3) := by
  constructor
  · intro b hlen hrows
    have hwf : boardWF b = true := (boardWF_iff b).mpr ⟨hlen, hrows⟩
    obtain ⟨hwf', hcount⟩ := clear_full_lines_spec b hwf
    refine ⟨hcount, rfl, ?_⟩
    exact ((boardWF_iff _).mp hwf').1
  · decide

theorem claim_C2_witness :
    exampleBoardC2.length = 20 ∧ (∀ row ∈ exampleBoardC2, row.length = 10) ∧
      ((clear_full_lines exampleBoardC2).2 =
          (exampleBoardC2.filter fun row => ! hasEmptyCell row).length ∧
        (clear_full_lines exampleBoardC2).1 =
          List.replicate (clear_full_lines exampleBoardC2).2 emptyRow ++
            exampleBoardC2.filter (fun row => hasEmptyCell row) ∧
        ((clear_full_lines exampleBoardC2).1).length = 20) :=
  ⟨by decide, by decide, claim_C2.1 exampleBoardC2 (by decide) (by decide)⟩

/-- C10 fails as stated: Python's indexed assignment wraps negative
indices, so at position `(-1, 0)` with a single offset `(0, 0)` the
write lands on cell `(9, 0)`, not on the "absolute cell" `(-1, 0)`, and
an "other board cell" changes. -/
theorem claim_C10_counterexample :
    (lock_piece create_board [((0 : Int), (0 : Int))] (-1, 0)
        Piece.I).map (fun b => cellAt b 9 0) = some (some Piece.I) ∧
      cellAt create_board 9 0 = none := by
  decide

/-- C10 (amended with the in-bounds precondition documented for `lock`):
if every absolute cell lies within `[0,10) × [0,20)` on a well-formed
board, `lock_piece` succeeds, writes the kind into exactly the absolute
cells, leaves every other cell unchanged, and preserves the board's
dimensions. -/
theorem claim_C10 (b : Board) (sh : Shape) (pos : Int × Int) (k : Piece)
    (hwf : boardWF b = true)
    (hin : ∀ c ∈ absCells sh pos, inBounds c) :
    ∃ b', lock_piece b sh pos k = some b' ∧
      b'.length = b.length ∧ (∀ row ∈ b', row.length = 10) ∧
      (∀ c ∈ absCells sh pos, cellAt b' c.1 c.2 = some k) ∧
      (∀ x y : Int, inBounds (x, y) → (x, y) ∉ absCells sh pos →
        cellAt b' x y = cellAt b x y) := by
  have habs : absCells sh pos =
      sh.map fun c => (c.1 + pos.1, c.2 + pos.2) := rfl
  rw [habs] at hin
  obtain ⟨b', hb', hwf', hframe⟩ := lockCells_spec
    (sh.map fun c => (c.1 + pos.1, c.2 + pos.2)) b k hwf hin
  obtain ⟨hlen', hrows'⟩ := (boardWF_iff b').mp hwf'
  obtain ⟨hlen, _⟩ := (boardWF_iff b).mp hwf
  refine ⟨b', hb', by omega, hrows', ?_, ?_⟩
  · intro c hc
    rw [habs] at hc
    have := hframe c.1 c.2 (hin c hc)
    rwa [if_pos (by simpa using hc)] at this
  · intro x y hxy hnot
    rw [habs] at hnot
    have := hframe x y hxy
    rwa [if_neg hnot] at this

theorem claim_C10_witness :
    boardWF create_board = true ∧
    (∀ c ∈ absCells (shapeOf Piece.O 0) ((3 : Int), (0 : Int)),
      inBounds c) ∧
    (∃ b', lock_piece create_board (shapeOf Piece.O 0) (3, 0)
        Piece.O = some b' ∧
      b'.length = create_board.length ∧
      (∀ row ∈ b', row.length = 10) ∧
      (∀ c ∈ absCells (shapeOf Piece.O 0) ((3 : Int), (0 : Int)),
        cellAt b' c.1 c.2 = some Piece.O) ∧
      (∀ x y : Int, inBounds (x, y) →
        (x, y) ∉ absCells (shapeOf Piece.O 0) ((3 : Int), (0 : Int)) →
        cellAt b' x y = cellAt create_board x y)) :=
  ⟨by decide, by decide,
    claim_C10 create_board (shapeOf Piece.O 0) (3, 0) Piece.O
      (by decide) (by decide)⟩

/-- All spawn cells (rotation 0, anchor `(3, 0)`) are in bounds, for
every kind. -/
theorem spawn_cells_inBounds (k : Piece) :
    ∀ c ∈ absCells (shapeOf k 0) SPAWN_POS, inBounds c := by
  cases k <;> decide

/-- C9: the spawn anchor is `(width/2 - 2, 0) = (3, 0)` with rotation 0
(both at start-up and after each lock-in); spawning any kind on the
empty board succeeds; and spawn fails exactly when `can_place` rejects,
which for spawn cells means exactly an overlap with an occupied cell. -/
theorem claim_C9 :
    SPAWN_POS = ((3 : Int), (0 : Int)) ∧
    (∀ k : Piece, (initState k).rotation = 0 ∧
      (initState k).pos = SPAWN_POS ∧
      (initState k).running =
        can_place create_board (shapeOf k 0) SPAWN_POS) ∧
    (∀ (s : GameState) (next : Piece),
      (lockAndRespawn s next).rotation = 0 ∧
      (lockAndRespawn s next).pos = SPAWN_POS ∧
      (lockAndRespawn s next).running =
        can_place (lockAndRespawn s next).board (shapeOf next 0)
          SPAWN_POS) ∧
    (∀ k : Piece, can_place create_board (shapeOf k 0) SPAWN_POS =
      true) ∧
    (∀ (k : Piece) (b : Board),
      can_place b (shapeOf k 0) SPAWN_POS = false ↔
        ∃ c ∈ absCells (shapeOf k 0) SPAWN_POS,
          cellAt b c.1 c.2 ≠ none) := by
  refine ⟨by decide, fun k => ⟨rfl, rfl, rfl⟩,
    fun s next => ⟨rfl, rfl, rfl⟩, fun k => by cases k <;> decide,
    fun k b => ?_⟩
  constructor
  · intro h
    by_contra hno
    push_neg at hno
    have hcp : can_place b (shapeOf k 0) SPAWN_POS = true := by
      rw [can_place_iff]
      intro c hc
      have hmem : (c.1 + SPAWN_POS.1, c.2 + SPAWN_POS.2) ∈
          absCells (shapeOf k 0) SPAWN_POS :=
        List.mem_map_of_mem _ hc
      exact ⟨spawn_cells_inBounds k _ hmem, hno _ hmem⟩
    rw [hcp] at h
    simp at h
  · rintro ⟨c, hc, hne⟩
    by_contra hcp
    rw [Bool.not_eq_false] at hcp
    obtain ⟨a, ha, rfl⟩ := List.mem_map.mp hc
    exact hne ((can_place_iff b (shapeOf k 0) SPAWN_POS).mp hcp a ha).2

/-- C5: in every reachable state `level = linesCleared / 10 + 1` and
`fallInterval = max(0.1, 0.5 - (level-1)*0.04)` (exact arithmetic), and
the interval never drops below 0.1; the interval is monotonically
non-increasing in the level; and under those relations reaching 10
cleared lines gives level 2 with interval 0.46, and reaching 100 gives
the 0.1 floor. -/
theorem claim_C5 :
    (∀ s : GameState, Reachable s →
      s.level = s.totalCleared / 10 + 1 ∧
      s.fallInterval = fall_interval_of s.level ∧
      (1/10 : ℚ) ≤ s.fallInterval) ∧
    (∀ m n : Nat, m ≤ n → fall_interval_of n ≤ fall_interval_of m) ∧
    (∀ tc lv : Nat, ∀ fi : ℚ, lv = tc / 10 + 1 →
      fi = fall_interval_of lv → tc = 10 → lv = 2 ∧ fi = 46/100) ∧
    (∀ tc lv : Nat, ∀ fi : ℚ, lv = tc / 10 + 1 →
      fi = fall_interval_of lv → tc = 100 → fi = 1/10) := by
  refine ⟨?_, ?_, ?_, ?_⟩
  · intro s h
    obtain ⟨_, _, hlv, hfi⟩ := reachable_inv s h
    refine ⟨hlv, hfi, ?_⟩
    rw [hfi]
    exact le_max_left _ _
  · intro m n hmn
    unfold fall_interval_of
    refine max_le_max (le_refl _) ?_
    refine sub_le_sub_left ?_ _
    refine mul_le_mul_of_nonneg_right ?_ (by norm_num)
    have : (m : ℚ) ≤ (n : ℚ) := by exact_mod_cast hmn
    linarith
  · intro tc lv fi h1 h2 h10
    subst h10
    norm_num at h1
    subst h1
    refine ⟨rfl, ?_⟩
    rw [h2]
    unfold fall_interval_of
    norm_num [max_def]
  · intro tc lv fi h1 h2 h100
    subst h100
    norm_num at h1
    subst h1
    rw [h2]
    unfold fall_interval_of
    norm_num [max_def]

theorem claim_C5_witness :
    ((initState Piece.I).level =
        (initState Piece.I).totalCleared / 10 + 1 ∧
      (initState Piece.I).fallInterval =
        fall_interval_of (initState Piece.I).level ∧
      (1/10 : ℚ) ≤ (initState Piece.I).fallInterval) ∧
    fall_interval_of 3 ≤ fall_interval_of 1 ∧
    ((2 : Nat) = 2 ∧ (46/100 : ℚ) = 46/100) ∧
    (1/10 : ℚ) = 1/10 :=
  ⟨claim_C5.1 (initState Piece.I) (Reachable.init Piece.I),
    claim_C5.2.1 1 3 (by norm_num),
    claim_C5.2.2.1 10 2 (46/100) (by norm_num)
      (by unfold fall_interval_of; norm_num [max_def]) rfl,
    claim_C5.2.2.2 100 11 (1/10) (by norm_num)
      (by unfold fall_interval_of; norm_num [max_def]) rfl⟩

theorem lockAndRespawn_score (s : GameState) (next : Piece) :
    (lockAndRespawn s next).score =
      s.score + clearedCount s ^ 2 * 100 := by
  unfold lockAndRespawn clearedCount
  dsimp only
  by_cases hcl : (clear_full_lines
      ((lock_piece s.board (shapeOf s.piece s.rotation) s.pos
        s.piece).getD s.board)).2 = 0
  · simp [hcl]
  · simp [hcl]

theorem lockAndRespawn_totalCleared (s : GameState) (next : Piece) :
    (lockAndRespawn s next).totalCleared =
      s.totalCleared + clearedCount s := by
  unfold lockAndRespawn clearedCount
  dsimp only
  by_cases hcl : (clear_full_lines
      ((lock_piece s.board (shapeOf s.piece s.rotation) s.pos
        s.piece).getD s.board)).2 = 0
  · simp [hcl]
  · simp [hcl]

theorem step_not_running (s : GameState) (e : Event) (next : Piece)
    (h : ¬ s.running = true) : step s e next = s := by
  unfold step
  rw [if_neg h]

/-- C4: every lock-in adds exactly `cleared^2 * 100` to the score and
`cleared` to the lines counter; left/right/rotate/quit and an accepted
soft drop never change the score; a rejected downward move and a hard
drop change it exactly through their lock-in. -/
theorem claim_C4 :
    (∀ (s : GameState) (next : Piece),
      (lockAndRespawn s next).score =
          s.score + clearedCount s ^ 2 * 100 ∧
      (lockAndRespawn s next).totalCleared =
          s.totalCleared + clearedCount s) ∧
    (∀ (s : GameState) (next : Piece),
      (step s .left next).score = s.score ∧
      (step s .right next).score = s.score ∧
      (step s .rotate next).score = s.score ∧
      (step s .quit next).score = s.score) ∧
    (∀ (s : GameState) (next : Piece),
      can_place s.board (shapeOf s.piece s.rotation)
          (s.pos.1, s.pos.2 + 1) = true →
      (step s .down next).score = s.score ∧
      (step s .tick next).score = s.score) ∧
    (∀ (s : GameState) (next : Piece), s.running = true →
      can_place s.board (shapeOf s.piece s.rotation)
          (s.pos.1, s.pos.2 + 1) = false →
      (step s .down next).score =
          s.score + clearedCount s ^ 2 * 100 ∧
      (step s .tick next).score =
          s.score + clearedCount s ^ 2 * 100) ∧
    (∀ (s : GameState) (next : Piece), s.running = true →
      (step s .drop next).score =
        s.score +
          clearedCount
            { s with
              pos := (s.pos.1,
                hardDropY s.board (shapeOf s.piece s.rotation)
                  s.pos) } ^ 2 * 100) := by
  refine ⟨?_, ?_, ?_, ?_, ?_⟩
  · exact fun s next =>
      ⟨lockAndRespawn_score s next, lockAndRespawn_totalCleared s next⟩
  · intro s next
    by_cases hrun : s.running = true
    · have hL : step s .left next = tryLeft s := by
        unfold step; rw [if_pos hrun]
      have hR : step s .right next = tryRight s := by
        unfold step; rw [if_pos hrun]
      have hT : step s .rotate next = tryRotate s := by
        unfold step; rw [if_pos hrun]
      have hQ : step s .quit next = { s with running := false } := by
        unfold step; rw [if_pos hrun]
      refine ⟨?_, ?_, ?_, ?_⟩
      · rw [hL]; unfold tryLeft; dsimp only; split <;> rfl
      · rw [hR]; unfold tryRight; dsimp only; split <;> rfl
      · rw [hT]; unfold tryRotate; dsimp only; split <;> rfl
      · rw [hQ]
    · rw [step_not_running s _ next hrun, step_not_running s _ next hrun,
        step_not_running s _ next hrun, step_not_running s _ next hrun]
      exact ⟨rfl, rfl, rfl, rfl⟩
  · intro s next h
    by_cases hrun : s.running = true
    · have hD : step s .down next = softDropStep s next := by
        unfold step; rw [if_pos hrun]
      have hK : step s .tick next = softDropStep s next := by
        unfold step; rw [if_pos hrun]
      rw [hD, hK]
      unfold softDropStep
      dsimp only
      rw [if_pos h]
      exact ⟨rfl, rfl⟩
    · rw [step_not_running s _ next hrun, step_not_running s _ next hrun]
      exact ⟨rfl, rfl⟩
  · intro s next hrun h
    have hD : step s .down next = softDropStep s next := by
      unfold step; rw [if_pos hrun]
    have hK : step s .tick next = softDropStep s next := by
      unfold step; rw [if_pos hrun]
    have hS : softDropStep s next = lockAndRespawn s next := by
      unfold softDropStep; dsimp only; rw [if_neg (by simp [h])]
    rw [hD, hK, hS]
    exact ⟨lockAndRespawn_score s next, lockAndRespawn_score s next⟩
  · intro s next hrun
    have hD : step s .drop next =
        lockAndRespawn
          { s with
            pos := (s.pos.1,
              hardDropY s.board (shapeOf s.piece s.rotation) s.pos) }
          next := by
      unfold step; rw [if_pos hrun]
    rw [hD, lockAndRespawn_score]

theorem claim_C4_witness :
    ((lockAndRespawn (initState Piece.O) Piece.I).score =
        (initState Piece.O).score +
          clearedCount (initState Piece.O) ^ 2 * 100 ∧
      (lockAndRespawn (initState Piece.O) Piece.I).totalCleared =
        (initState Piece.O).totalCleared +
          clearedCount (initState Piece.O)) ∧
    ((step (initState Piece.O) .left Piece.I).score =
        (initState Piece.O).score ∧
      (step (initState Piece.O) .right Piece.I).score =
        (initState Piece.O).score ∧
      (step (initState Piece.O) .rotate Piece.I).score =
        (initState Piece.O).score ∧
      (step (initState Piece.O) .quit Piece.I).score =
        (initState Piece.O).score) ∧
    ((step (initState Piece.O) .down Piece.I).score =
        (initState Piece.O).score ∧
      (step (initState Piece.O) .tick Piece.I).score =
        (initState Piece.O).score) ∧
    ((step bottomState .down Piece.I).score =
        bottomState.score + clearedCount bottomState ^ 2 * 100 ∧
      (step bottomState .tick Piece.I).score =
        bottomState.score + clearedCount bottomState ^ 2 * 100) ∧
    (step bottomState .drop Piece.I).score =
      bottomState.score +
        clearedCount
          { bottomState with
            pos := (bottomState.pos.1,
              hardDropY bottomState.board
                (shapeOf bottomState.piece bottomState.rotation)
                bottomState.pos) } ^ 2 * 100 :=
  ⟨claim_C4.1 (initState Piece.O) Piece.I,
    claim_C4.2.1 (initState Piece.O) Piece.I,
    claim_C4.2.2.1 (initState Piece.O) Piece.I (by decide),
    claim_C4.2.2.2.1 bottomState Piece.I (by decide) (by decide),
    claim_C4.2.2.2.2 bottomState Piece.I (by decide)⟩

/-- C7: while running, a left, right or rotate attempt whose target
cells `can_place` rejects leaves the entire state unchanged; a rejected
downward move instead runs the lock-in protocol. -/
theorem claim_C7 (s : GameState) (next : Piece)
    (hrun : s.running = true) :
    (can_place s.board (shapeOf s.piece s.rotation)
        (s.pos.1 - 1, s.pos.2) = false → step s .left next = s) ∧
    (can_place s.board (shapeOf s.piece s.rotation)
        (s.pos.1 + 1, s.pos.2) = false → step s .right next = s) ∧
    (can_place s.board
        (shapeOf s.piece
          ((s.rotation + 1) % (TETROMINOS s.piece).length)) s.pos =
        false → step s .rotate next = s) ∧
    (can_place s.board (shapeOf s.piece s.rotation)
        (s.pos.1, s.pos.2 + 1) = false →
      step s .down next = lockAndRespawn s next ∧
      step s .tick next = lockAndRespawn s next) := by
  have hL : step s .left next = tryLeft s := by
    unfold step; rw [if_pos hrun]
  have hR : step s .right next = tryRight s := by
    unfold step; rw [if_pos hrun]
  have hT : step s .rotate next = tryRotate s := by
    unfold step; rw [if_pos hrun]
  have hD : step s .down next = softDropStep s next := by
    unfold step; rw [if_pos hrun]
  have hK : step s .tick next = softDropStep s next := by
    unfold step; rw [if_pos hrun]
  refine ⟨?_, ?_, ?_, ?_⟩
  · intro h
    rw [hL]; unfold tryLeft; dsimp only; rw [if_neg (by simp [h])]
  · intro h
    rw [hR]; unfold tryRight; dsimp only; rw [if_neg (by simp [h])]
  · intro h
    rw [hT]; unfold tryRotate; dsimp only; rw [if_neg (by simp [h])]
  · intro h
    have hS : softDropStep s next = lockAndRespawn s next := by
      unfold softDropStep; dsimp only; rw [if_neg (by simp [h])]
    rw [hD, hK, hS]
    exact ⟨rfl, rfl⟩

theorem claim_C7_witness :
    crampedState.running = true ∧
    step crampedState .left Piece.I = crampedState ∧
    step crampedState .right Piece.I = crampedState ∧
    step crampedState .rotate Piece.I = crampedState ∧
    (step crampedState .down Piece.I =
        lockAndRespawn crampedState Piece.I ∧
      step crampedState .tick Piece.I =
        lockAndRespawn crampedState Piece.I) :=
  ⟨by decide,
    (claim_C7 crampedState Piece.I (by decide)).1 (by decide),
    (claim_C7 crampedState Piece.I (by decide)).2.1 (by decide),
    (claim_C7 crampedState Piece.I (by decide)).2.2.1 (by decide),
    (claim_C7 crampedState Piece.I (by decide)).2.2.2 (by decide)⟩

/-- Every kind has exactly 4 rotation states. -/
theorem tetrominos_length (k : Piece) : (TETROMINOS k).length = 4 := by
  cases k <;> rfl

/-- C6: from rotation 0, at an anchor where all four rotation states are
collision-free, four committed clockwise rotations return the exact
original state (rotation 0, original anchor, original absolute cells). -/
theorem claim_C6 (s : GameState) (h0 : s.rotation = 0)
    (hall : ∀ r, r < 4 →
      can_place s.board (shapeOf s.piece r) s.pos = true) :
    tryRotate (tryRotate (tryRotate (tryRotate s))) = s := by
  obtain ⟨b, k, r, p, sc, tc, lv, fi, run⟩ := s
  dsimp only at h0 hall ⊢
  subst h0
  have hlen := tetrominos_length k
  have h1 : tryRotate ⟨b, k, 0, p, sc, tc, lv, fi, run⟩ =
      ⟨b, k, 1, p, sc, tc, lv, fi, run⟩ := by
    have e : (0 + 1) % (TETROMINOS k).length = 1 := by rw [hlen]
    unfold tryRotate
    dsimp only
    rw [e, if_pos (hall 1 (by norm_num))]
  have h2 : tryRotate ⟨b, k, 1, p, sc, tc, lv, fi, run⟩ =
      ⟨b, k, 2, p, sc, tc, lv, fi, run⟩ := by
    have e : (1 + 1) % (TETROMINOS k).length = 2 := by rw [hlen]
    unfold tryRotate
    dsimp only
    rw [e, if_pos (hall 2 (by norm_num))]
  have h3 : tryRotate ⟨b, k, 2, p, sc, tc, lv, fi, run⟩ =
      ⟨b, k, 3, p, sc, tc, lv, fi, run⟩ := by
    have e : (2 + 1) % (TETROMINOS k).length = 3 := by rw [hlen]
    unfold tryRotate
    dsimp only
    rw [e, if_pos (hall 3 (by norm_num))]
  have h4 : tryRotate ⟨b, k, 3, p, sc, tc, lv, fi, run⟩ =
      ⟨b, k, 0, p, sc, tc, lv, fi, run⟩ := by
    have e : (3 + 1) % (TETROMINOS k).length = 0 := by rw [hlen]
    unfold tryRotate
    dsimp only
    rw [e, if_pos (hall 0 (by norm_num))]
  rw [h1, h2, h3, h4]

theorem claim_C6_witness :
    (initState Piece.I).rotation = 0 ∧
    (∀ r, r < 4 →
      can_place (initState Piece.I).board
        (shapeOf (initState Piece.I).piece r)
        (initState Piece.I).pos = true) ∧
    tryRotate (tryRotate (tryRotate (tryRotate (initState Piece.I)))) =
      initState Piece.I :=
  ⟨by decide, by decide,
    claim_C6 (initState Piece.I) (by decide) (by decide)⟩

/-- Rotation states are never empty. -/
theorem shapeOf_ne_nil (k : Piece) (r : Nat) (hr : r < 4) :
    shapeOf k r ≠ [] := by
  cases k <;> interval_cases r <;> decide

/-- C8: the hard-drop loop descends monotonically, makes at most 20
one-row steps, every intermediate position is valid, the resting row is
the unique row reachable through valid intermediate steps whose next
row down is invalid, and the `drop` event locks in exactly there. -/
theorem claim_C8 (s : GameState) (next : Piece)
    (hrun : s.running = true) (hrot : s.rotation < 4)
    (hcp : can_place s.board (shapeOf s.piece s.rotation) s.pos =
      true) :
    let sh := shapeOf s.piece s.rotation
    let yd := hardDropY s.board sh s.pos
    s.pos.2 ≤ yd ∧ yd - s.pos.2 ≤ 20 ∧
    can_place s.board sh (s.pos.1, yd) = true ∧
    can_place s.board sh (s.pos.1, yd + 1) = false ∧
    (∀ i : Int, s.pos.2 ≤ i → i ≤ yd →
      can_place s.board sh (s.pos.1, i) = true) ∧
    (∀ y' : Int, s.pos.2 ≤ y' →
      (∀ i : Int, s.pos.2 ≤ i → i ≤ y' →
        can_place s.board sh (s.pos.1, i) = true) →
      can_place s.board sh (s.pos.1, y' + 1) = false → y' = yd) ∧
    step s .drop next =
      lockAndRespawn { s with pos := (s.pos.1, yd) } next := by
  intro sh yd
  obtain ⟨c, hc⟩ :=
    List.exists_mem_of_ne_nil _ (shapeOf_ne_nil s.piece s.rotation hrot)
  have hcp' : can_place s.board sh (s.pos.1, s.pos.2) = true := hcp
  have hcz : (0 : Int) ≤ c.2 + s.pos.2 :=
    ((can_place_iff s.board sh s.pos).mp hcp c hc).1.2.2.1
  have hmono : s.pos.2 ≤ yd := hardDropAux_le s.board sh s.pos.1 20
    s.pos.2
  have hend : can_place s.board sh (s.pos.1, yd) = true :=
    hardDropAux_can_place s.board sh s.pos.1 20 s.pos.2 hcp'
  have hstops : can_place s.board sh (s.pos.1, yd + 1) = false :=
    hardDropAux_stops s.board sh s.pos.1 20 s.pos.2 c hc hcp'
      (by push_cast; omega)
  have hbound : yd - s.pos.2 ≤ 19 :=
    hardDropAux_bound s.board sh s.pos.1 20 s.pos.2 c hc hcp'
  have hinter : ∀ i : Int, s.pos.2 ≤ i → i ≤ yd →
      can_place s.board sh (s.pos.1, i) = true :=
    fun i h1 h2 =>
      hardDropAux_intermediate s.board sh s.pos.1 20 s.pos.2 hcp' i h1 h2
  refine ⟨hmono, by omega, hend, hstops, hinter, ?_, ?_⟩
  · intro y' h0 hall hstop
    by_contra hne
    rcases lt_or_gt_of_ne hne with hlt | hgt
    · exact absurd (hinter (y' + 1) (by omega) (by omega))
        (by simp [hstop])
    · exact absurd (hall (yd + 1) (by omega) (by omega))
        (by simp [hstops])
  · unfold step
    rw [if_pos hrun]

theorem claim_C8_witness :
    (initState Piece.O).running = true ∧
    (initState Piece.O).rotation < 4 ∧
    can_place (initState Piece.O).board
      (shapeOf (initState Piece.O).piece (initState Piece.O).rotation)
      (initState Piece.O).pos = true ∧
    (let sh := shapeOf (initState Piece.O).piece
        (initState Piece.O).rotation
     let yd := hardDropY (initState Piece.O).board sh
        (initState Piece.O).pos
     (initState Piece.O).pos.2 ≤ yd ∧
     yd - (initState Piece.O).pos.2 ≤ 20 ∧
     can_place (initState Piece.O).board sh
       ((initState Piece.O).pos.1, yd) = true ∧
     can_place (initState Piece.O).board sh
       ((initState Piece.O).pos.1, yd + 1) = false ∧
     (∀ i : Int, (initState Piece.O).pos.2 ≤ i → i ≤ yd →
       can_place (initState Piece.O).board sh
         ((initState Piece.O).pos.1, i) = true) ∧
     (∀ y' : Int, (initState Piece.O).pos.2 ≤ y' →
       (∀ i : Int, (initState Piece.O).pos.2 ≤ i → i ≤ y' →
         can_place (initState Piece.O).board sh
           ((initState Piece.O).pos.1, i) = true) →
       can_place (initState Piece.O).board sh
         ((initState Piece.O).pos.1, y' + 1) = false → y' = yd) ∧
     step (initState Piece.O) .drop Piece.I =
       lockAndRespawn
         { initState Piece.O with
           pos := ((initState Piece.O).pos.1, yd) } Piece.I) :=
  ⟨by decide, by decide, by decide,
    claim_C8 (initState Piece.O) Piece.I (by decide) (by decide)
      (by decide)⟩

/-- C1: in every reachable state the board is exactly 20 rows of 10
cells (so every occupied cell lies within `[0,10) × [0,20)`), and while
the session is running every absolute cell of the active piece is in
bounds and does not coincide with an occupied board cell. -/
theorem claim_C1 (s : GameState) (h : Reachable s) :
    (s.board.length = 20 ∧ ∀ row ∈ s.board, row.length = 10) ∧
    (s.running = true →
      ∀ c ∈ absCells (shapeOf s.piece s.rotation) s.pos,
        (0 ≤ c.1 ∧ c.1 < 10 ∧ 0 ≤ c.2 ∧ c.2 < 20) ∧
        cellAt s.board c.1 c.2 = none) := by
  obtain ⟨hwf, hcp, _, _⟩ := reachable_inv s h
  refine ⟨(boardWF_iff _).mp hwf, fun hrun c hc => ?_⟩
  obtain ⟨a, ha, rfl⟩ := List.mem_map.mp hc
  exact (can_place_iff _ _ _).mp (hcp hrun) a ha

theorem claim_C1_witness :
    ((initState Piece.I).board.length = 20 ∧
      ∀ row ∈ (initState Piece.I).board, row.length = 10) ∧
    ((initState Piece.I).running = true →
      ∀ c ∈ absCells
          (shapeOf (initState Piece.I).piece
            (initState Piece.I).rotation)
          (initState Piece.I).pos,
        (0 ≤ c.1 ∧ c.1 < 10 ∧ 0 ≤ c.2 ∧ c.2 < 20) ∧
        cellAt (initState Piece.I).board c.1 c.2 = none) :=
  claim_C1 (initState Piece.I) (Reachable.init Piece.I)

end Tetris
